import Mathlib

/-!
# Verification of `trio._path` (async `pathlib.Path` facade)

A shallow embedding of `src/trio/_path.py`.  Python's dynamically typed
values are modelled by the inductive type `Value`; the external `pathlib`
collaborator is modelled minimally (a pure path is its tuple of parts);
fallible Python calls return `Except PyError Value`.  Each function of the
source file is translated into a Lean definition of the same name, and the
specified properties are proved about those definitions.
-/

namespace TrioPath

/-- Python exceptions that the embedded code can raise or propagate. -/
inductive PyError where
  | typeError (name : String)
  | attributeError (name : String)
  | osError (msg : String)
  | other (msg : String)
deriving DecidableEq, Repr

/-- Model of the external `pathlib` collaborator's pure path value: a
`pathlib.PurePath` / `pathlib.Path` instance is identified with its tuple of
path components (`.parts`). -/
structure RawPath where
  parts : List String
deriving DecidableEq, Repr

/-- A dynamically typed Python value, covering the shapes that appear in
`trio._path`: `None`, booleans, integers, strings, raw `pathlib.Path`
instances, `trio.Path` facade instances (constructor `facade`, whose field
is the `_wrapped` attribute), lists of raw paths (the shape returned by
e.g. directory listing), and `NotImplemented`.

`facade` deliberately carries an arbitrary `Value` (not a `RawPath`), so
that the invariant "the wrapped value is always a raw path" is a provable
property of the constructing code, not of the data type. -/
inductive Value where
  | none
  | bool (b : Bool)
  | int (n : Int)
  | str (s : String)
  | rawPath (p : RawPath)
  | facade (wrapped : Value)
  | list (elems : List RawPath)
  | notImplemented
deriving DecidableEq, Repr

/-- Keyword arguments: a Python `**kwargs` dict, as an association list. -/
abbrev Kw : Type := List (String × Value)

/-- Attribute access `self._wrapped` on a facade instance; raises
`AttributeError` on any value that is not a facade instance. -/
def Value.wrappedGet : Value → Except PyError Value
  | .facade w => .ok w
  | _ => .error (.attributeError "_wrapped")

/-- Test `isinstance(v, Path)` — is this value a facade instance? -/
def Value.isFacade : Value → Bool
  | .facade _ => true
  | _ => false

/-- Test `isinstance(v, pathlib.Path)` — is this value a raw path instance? -/
def Value.isRawPath : Value → Bool
  | .rawPath _ => true
  | _ => false

/-- Function `unwrap_paths` from the source: walk the positional-argument
list; any argument that is a facade instance (`isinstance(arg, Path)`) is
replaced by its `_wrapped` raw value, every other argument is appended
unchanged. -/
def unwrap_paths : List Value → List Value
  | [] => []
  | arg :: rest =>
    (match arg with
     | .facade w => w
     | v => v) :: unwrap_paths rest

/-! ## Model of the external `pathlib` collaborator

`pathlib` is an out-of-scope external collaborator: only the behaviour the
facade relies on is modelled.  A path string is parsed into components by
splitting on the separator and dropping empty and `.` components; the
variadic `pathlib.Path(*args)` constructor concatenates the components of
its string / path segments and raises `TypeError` on any other segment. -/

/-- Split a character list on a separator character. -/
def splitOnChar (sep : Char) : List Char → List (List Char)
  | [] => [[]]
  | c :: cs =>
    match splitOnChar sep cs with
    | [] => if c = sep then [[], []] else [[c]]
    | r :: rs =>
      if c = sep then [] :: r :: rs
      else (c :: r) :: rs

/-- Parse a path string into its components, dropping empty and `.`
components, as `pathlib`'s parser does for relative paths. -/
def parseParts (s : String) : List String :=
  ((splitOnChar '/' s.toList).map List.asString).filter
    (fun seg => seg ≠ "" && seg ≠ ".")

/-- Join path components back into the path string (`str(p)`); the empty
path prints as `"."` as in `pathlib`. -/
def joinParts : List String → String
  | [] => "."
  | [seg] => seg
  | seg :: rest => seg ++ "/" ++ joinParts rest

/-- One segment of the variadic `pathlib.Path(*args)` constructor: a string
is parsed, an existing path contributes its components, anything else is a
`TypeError`. -/
def pathSegment : Value → Except PyError (List String)
  | .str s => .ok (parseParts s)
  | .rawPath p => .ok p.parts
  | _ => .error (.typeError "argument should be a str or an os.PathLike object")

/-- The variadic `pathlib.Path(*args)` constructor over already-unwrapped
segments. -/
def pathlib_Path : List Value → Except PyError RawPath
  | [] => .ok ⟨[]⟩
  | arg :: rest => do
    let segs ← pathSegment arg
    let tail ← pathlib_Path rest
    pure ⟨segs ++ tail.parts⟩

/-- Operator `pathlib.PurePath.__eq__`, called by the magic-forward wrapper either
unarily (never, in practice) or with one operand: path equality compares
the normalised path, i.e. the components; a non-path operand gives
`NotImplemented`. -/
def PurePath_eq : Value → Option Value → Value
  | .rawPath a, some (.rawPath b) => .bool (a == b)
  | _, _ => .notImplemented

/-- Operator `pathlib.PurePath.__lt__`: ordering on the normalised path string. -/
def PurePath_lt : Value → Option Value → Value
  | .rawPath a, some (.rawPath b) => .bool (decide (joinParts a.parts < joinParts b.parts))
  | _, _ => .notImplemented

/-- Operator `pathlib.PurePath.__str__` (unary). -/
def PurePath_str : Value → Option Value → Value
  | .rawPath a, Option.none => .str (joinParts a.parts)
  | _, _ => .notImplemented

/-- Operator `pathlib.PurePath.__truediv__`: path join; a string operand is parsed,
a path operand contributes its components, anything else gives
`NotImplemented`. -/
def PurePath_truediv : Value → Option Value → Value
  | .rawPath a, some (.str s) => .rawPath ⟨a.parts ++ parseParts s⟩
  | .rawPath a, some (.rawPath b) => .rawPath ⟨a.parts ++ b.parts⟩
  | _, _ => .notImplemented

/-! ## The facade's own code (`trio._path`) -/

/-- Constructor `Path.__init__(self, *args)` from the source: unwrap the constructor
arguments via `unwrap_paths`, then set `self._wrapped = pathlib.Path(*args)`.
The result is the constructed facade instance. -/
def Path_init (args : List Value) : Except PyError Value := do
  let args := unwrap_paths args
  let wrapped ← pathlib_Path args
  pure (Value.facade (Value.rawPath wrapped))

/-- Function `rewrap_path` from the source: if the value is an instance of
`pathlib.Path`, replace it with `Path(value)` (whose `__init__` provably
succeeds on a raw path, so the error branch below is unreachable);
otherwise return it unchanged. -/
def rewrap_path (value : Value) : Value :=
  match value with
  | .rawPath p =>
    match Path_init [Value.rawPath p] with
    | .ok f => f
    | .error _ => Value.rawPath p
  | v => v

/-- Wrapper synthesized by `_forward_factory(cls, attr_name, attr)`: unwrap
the positional arguments, look up the member on `self._wrapped` and call it
with the unwrapped positionals and the original keywords, rewrap the
result.  `meth` stands for the underlying member (`getattr` of the raw
value followed by the call). -/
def _forward_factory (meth : Value → List Value → Kw → Except PyError Value)
    (self : Value) (args : List Value) (kwargs : Kw) : Except PyError Value := do
  let args := unwrap_paths args
  let wrapped ← self.wrappedGet
  let value ← meth wrapped args kwargs
  pure (rewrap_path value)

/-- Wrapper synthesized by `_forward_magic(cls, attr)`: with no operand
(`other is sentinel`) return `attr(self._wrapped)` unmodified; with one
operand, unwrap it when it is a facade instance (`isinstance(other, cls)`),
call `attr(self._wrapped, other)` and rewrap the result.  `attr` is the
underlying operator, taking the receiver and the optional operand. -/
def _forward_magic (attr : Value → Option Value → Value)
    (self : Value) (other : Option Value) : Except PyError Value := do
  match other with
  | Option.none =>
    let w ← self.wrappedGet
    pure (attr w Option.none)
  | some o =>
    let o := match o with
      | .facade w => w
      | v => v
    let w ← self.wrappedGet
    pure (rewrap_path (attr w (some o)))

/-- Modelled from the spec: the worker-offload facility
(`trio.run_sync_in_worker_thread`, not part of `src/`) takes the
zero-argument deferred invocation, executes it on a worker thread, and
resumes the caller with its return value or re-raises its error. -/
def run_sync_in_worker_thread (func : Unit → Except PyError Value) :
    Except PyError Value :=
  func ()

/-- Wrapper synthesized by `thread_wrapper_factory(cls, meth_name)`: unwrap
the positional arguments, bind the member of `self._wrapped` with them and
the original keywords into a zero-argument invocation (`partial`), run it
via the worker-offload facility, rewrap the result. -/
def thread_wrapper_factory (meth : Value → List Value → Kw → Except PyError Value)
    (self : Value) (args : List Value) (kwargs : Kw) : Except PyError Value := do
  let args := unwrap_paths args
  let wrapped ← self.wrappedGet
  let func := fun (_ : Unit) => meth wrapped args kwargs
  let value ← run_sync_in_worker_thread func
  pure (rewrap_path value)

/-! ## The member classifier (`AsyncAutoWrapperType`)

The metaclass walks `cls._forwards.__dict__` and `cls._wraps.__dict__`.
For classification only the *kind* of each declared member matters
(`isinstance(attr, property)`, `isinstance(attr, types.FunctionType)`,
`isinstance(attr, classmethod)`), so a member dictionary is modelled as an
association list from names to member kinds. -/

/-- Kind of a member declared on a source type's `__dict__`. -/
inductive Member where
  | prop
  | func
  | classmeth
  | other (desc : String)
deriving DecidableEq, Repr

/-- Test `attr_name.startswith('_')`: is the first character of the name
the internal-prefix character? -/
def startswith_underscore (n : String) : Bool :=
  match n.toList with
  | [] => false
  | c :: _ => c = '_'

/-- Skip test of both classifier loops:
`attr_name.startswith('_') or attr_name in attrs`.  A member is *eligible*
for classification when this is false. -/
def eligible (attrs : List String) (n : String) : Bool :=
  !(startswith_underscore n || attrs.contains n)

/-- Method `generate_forwards` of the metaclass: walk the non-blocking
source's member dict; skip internal-prefixed names and names already in
`attrs`; record a property's name in `cls._forward` (first component);
attach a `_forward_factory` wrapper for a plain function (its name goes in
the second component); raise `TypeError` for any other member kind.  The
result is the pair (property-forward names, non-blocking dispatcher
names). -/
def generate_forwards (attrs : List String) :
    List (String × Member) → Except PyError (List String × List String)
  | [] => .ok ([], [])
  | (n, m) :: rest =>
    if startswith_underscore n || attrs.contains n then
      generate_forwards attrs rest
    else
      match m with
      | .prop =>
        match generate_forwards attrs rest with
        | .ok (ps, fs) => .ok (n :: ps, fs)
        | .error e => .error e
      | .func =>
        match generate_forwards attrs rest with
        | .ok (ps, fs) => .ok (ps, n :: fs)
        | .error e => .error e
      | _ => .error (.typeError n)

/-- Method `generate_wraps` of the metaclass: walk the blocking source's
member dict with the same skip test; attach a classmethod unchanged (first
component); attach a `thread_wrapper_factory` wrapper for a plain function
(second component); raise `TypeError` for any other member kind. -/
def generate_wraps (attrs : List String) :
    List (String × Member) → Except PyError (List String × List String)
  | [] => .ok ([], [])
  | (n, m) :: rest =>
    if startswith_underscore n || attrs.contains n then
      generate_wraps attrs rest
    else
      match m with
      | .classmeth =>
        match generate_wraps attrs rest with
        | .ok (cs, ws) => .ok (n :: cs, ws)
        | .error e => .error e
      | .func =>
        match generate_wraps attrs rest with
        | .ok (cs, ws) => .ok (cs, n :: ws)
        | .error e => .error e
      | _ => .error (.typeError n)

/-- Outcome of facade type construction: the four buckets a classified
member can be placed in.  (`generate_magic` additionally attaches
`_forward_magic` wrappers for the fixed `Path._forward_magic` name list;
those wrappers are modelled by `_forward_magic` below.) -/
structure ClassifyResult where
  forwardProps : List String
  forwardMeths : List String
  classMeths : List String
  wrapMeths : List String
deriving DecidableEq, Repr

/-- Method `AsyncAutoWrapperType.__init__`: run `generate_forwards` then
`generate_wraps`; a `TypeError` from either aborts construction of the
facade type. -/
def AsyncAutoWrapperType_init (attrs : List String)
    (forwardsDict wrapsDict : List (String × Member)) :
    Except PyError ClassifyResult :=
  match generate_forwards attrs forwardsDict with
  | .error e => .error e
  | .ok (ps, fs) =>
    match generate_wraps attrs wrapsDict with
    | .error e => .error e
    | .ok (cs, ws) => .ok ⟨ps, fs, cs, ws⟩

/-- The fixed operator name list `Path._forward_magic` from the source. -/
def Path_forward_magic : List String :=
  ["__str__", "__bytes__", "__truediv__", "__rtruediv__", "__eq__",
   "__lt__", "__le__", "__gt__", "__ge__"]

/-- Method `Path.__getattr__(self, name)`: called for a name not found by
normal lookup; if the name is in `self._forward` (the property-forward
bucket), evaluate that member on `self._wrapped` (`raw_getattr` models
`getattr` on the raw value) and rewrap it; otherwise raise
`AttributeError(name)`. -/
def Path_getattr (forward : List String)
    (raw_getattr : Value → String → Except PyError Value)
    (self : Value) (name : String) : Except PyError Value :=
  if forward.contains name then do
    let w ← self.wrappedGet
    let value ← raw_getattr w name
    pure (rewrap_path value)
  else .error (.attributeError name)

/-! ## Basic lemmas -/

/-- Constructing a facade from a single raw path succeeds and owns an
equal raw path. -/
theorem Path_init_raw (p : RawPath) :
    Path_init [Value.rawPath p] = .ok (Value.facade (Value.rawPath p)) := by
  have h : Path_init [Value.rawPath p] =
      .ok (Value.facade (Value.rawPath ⟨p.parts ++ []⟩)) := rfl
  rw [h]
  simp

/-- Rewrapping a raw path yields the facade owning it. -/
theorem rewrap_path_raw (p : RawPath) :
    rewrap_path (Value.rawPath p) = Value.facade (Value.rawPath p) := by
  simp [rewrap_path, Path_init_raw]

/-- Binding an `Except` against an `ok`-returning continuation is `map`. -/
theorem bind_ok_map {α β : Type} (x : Except PyError α) (f : α → β) :
    Except.bind x (fun v => Except.ok (f v)) = x.map f := by
  cases x <;> rfl

/-! ## The claims -/

/-- C4: `unwrap_paths` yields a list of the same length whose `i`-th
element is the owned raw value when the `i`-th argument is a facade
instance and the original argument itself otherwise. -/
theorem unwrap_paths_spec (args : List Value) :
    (unwrap_paths args).length = args.length ∧
    ∀ i, (hi : i < args.length) → (hu : i < (unwrap_paths args).length) →
      (unwrap_paths args).get ⟨i, hu⟩ =
        match args.get ⟨i, hi⟩ with
        | Value.facade w => w
        | v => v := by
  induction args with
  | nil => exact ⟨rfl, fun i hi _ => absurd hi (Nat.not_lt_zero i)⟩
  | cons a rest ih =>
    refine ⟨by simpa [unwrap_paths] using ih.1, ?_⟩
    intro i hi hu
    cases i with
    | zero => cases a <;> rfl
    | succ j => exact ih.2 j (Nat.lt_of_succ_lt_succ hi) (Nat.lt_of_succ_lt_succ hu)

/-- Witness for C4 at a concrete two-element argument list. -/
theorem unwrap_paths_spec_witness :
    (unwrap_paths [Value.facade (Value.rawPath ⟨["a"]⟩), Value.str "b"]).get
      ⟨0, by decide⟩ = Value.rawPath ⟨["a"]⟩ := by
  have h := (unwrap_paths_spec [Value.facade (Value.rawPath ⟨["a"]⟩), Value.str "b"]).2
      0 (by decide) (by decide)
  simpa using h

/-- C5: `rewrap_path` wraps exactly a top-level raw path value in a new
facade owning it, and returns every other value (strings, booleans, lists
of raw paths, facades, ...) unchanged. -/
theorem rewrap_path_spec :
    (∀ p : RawPath, rewrap_path (Value.rawPath p) = Value.facade (Value.rawPath p)) ∧
    (∀ v : Value, v.isRawPath = false → rewrap_path v = v) := by
  refine ⟨rewrap_path_raw, ?_⟩
  intro v hv
  cases v <;> simp_all [rewrap_path, Value.isRawPath]

/-- Witness for C5: a list of raw paths passes through unchanged. -/
theorem rewrap_path_spec_witness :
    rewrap_path (Value.list [⟨["a"]⟩, ⟨["b"]⟩]) = Value.list [⟨["a"]⟩, ⟨["b"]⟩] :=
  rewrap_path_spec.2 (Value.list [⟨["a"]⟩, ⟨["b"]⟩]) rfl

/-- C9: round trip — wrapping a raw path `p`, unwrapping the one-element
argument list, and rewrapping the extracted element yields the facade
owning `p` again, and comparing it with `p` through the forwarded equality
operator gives `True`. -/
theorem roundtrip_spec (p : RawPath) :
    Path_init [Value.rawPath p] = .ok (Value.facade (Value.rawPath p)) ∧
    rewrap_path ((unwrap_paths [Value.facade (Value.rawPath p)]).headD Value.none) =
      Value.facade (Value.rawPath p) ∧
    _forward_magic PurePath_eq
      (rewrap_path ((unwrap_paths [Value.facade (Value.rawPath p)]).headD Value.none))
      (some (Value.rawPath p)) = .ok (Value.bool true) := by
  have hu : (unwrap_paths [Value.facade (Value.rawPath p)]).headD Value.none =
      Value.rawPath p := rfl
  refine ⟨Path_init_raw p, ?_, ?_⟩
  · rw [hu, rewrap_path_raw]
  · rw [hu, rewrap_path_raw]
    have h0 : _forward_magic PurePath_eq (Value.facade (Value.rawPath p))
        (some (Value.rawPath p)) =
        Except.ok (rewrap_path (PurePath_eq (Value.rawPath p)
          (some (Value.rawPath p)))) := rfl
    rw [h0]
    simp [PurePath_eq, rewrap_path]

/-- C1: the synthesized non-blocking dispatcher equals the underlying
member applied to the owned raw value, the unwrapped positional arguments
and the unchanged keywords, with the result rewrapped; an error raised by
the member propagates unchanged. -/
theorem forward_factory_spec
    (meth : Value → List Value → Kw → Except PyError Value)
    (r : RawPath) (args : List Value) (kwargs : Kw) :
    _forward_factory meth (Value.facade (Value.rawPath r)) args kwargs =
      (meth (Value.rawPath r) (unwrap_paths args) kwargs).map rewrap_path ∧
    ∀ e, meth (Value.rawPath r) (unwrap_paths args) kwargs = .error e →
      _forward_factory meth (Value.facade (Value.rawPath r)) args kwargs = .error e := by
  have h : _forward_factory meth (Value.facade (Value.rawPath r)) args kwargs =
      (meth (Value.rawPath r) (unwrap_paths args) kwargs).map rewrap_path := by
    have h0 : _forward_factory meth (Value.facade (Value.rawPath r)) args kwargs =
        Except.bind (meth (Value.rawPath r) (unwrap_paths args) kwargs)
          (fun value => Except.ok (rewrap_path value)) := rfl
    rw [h0, bind_ok_map]
  exact ⟨h, fun e he => by rw [h, he]; rfl⟩

/-- Witness for C1 at a concrete failing member. -/
theorem forward_factory_spec_witness :
    _forward_factory (fun _ _ _ => .error (.osError "boom"))
      (Value.facade (Value.rawPath ⟨["a"]⟩)) [] [] = .error (.osError "boom") :=
  (forward_factory_spec (fun _ _ _ => .error (.osError "boom")) ⟨["a"]⟩ [] []).2
    (.osError "boom") rfl

/-- C2: the synthesized blocking dispatcher — with the worker-offload
facility modelled as running the bound zero-argument invocation — equals
the underlying member applied to the owned raw value, the unwrapped
positionals and the unchanged keywords, with the result rewrapped; an
error raised by the member is re-raised unchanged. -/
theorem thread_wrapper_spec
    (meth : Value → List Value → Kw → Except PyError Value)
    (r : RawPath) (args : List Value) (kwargs : Kw) :
    thread_wrapper_factory meth (Value.facade (Value.rawPath r)) args kwargs =
      (meth (Value.rawPath r) (unwrap_paths args) kwargs).map rewrap_path ∧
    ∀ e, meth (Value.rawPath r) (unwrap_paths args) kwargs = .error e →
      thread_wrapper_factory meth (Value.facade (Value.rawPath r)) args kwargs = .error e := by
  have h : thread_wrapper_factory meth (Value.facade (Value.rawPath r)) args kwargs =
      (meth (Value.rawPath r) (unwrap_paths args) kwargs).map rewrap_path := by
    have h0 : thread_wrapper_factory meth (Value.facade (Value.rawPath r)) args kwargs =
        Except.bind (meth (Value.rawPath r) (unwrap_paths args) kwargs)
          (fun value => Except.ok (rewrap_path value)) := rfl
    rw [h0, bind_ok_map]
  exact ⟨h, fun e he => by rw [h, he]; rfl⟩

/-- Witness for C2 at a concrete failing member. -/
theorem thread_wrapper_spec_witness :
    thread_wrapper_factory (fun _ _ _ => .error (.osError "ENOENT"))
      (Value.facade (Value.rawPath ⟨["a"]⟩)) [] [] = .error (.osError "ENOENT") :=
  (thread_wrapper_spec (fun _ _ _ => .error (.osError "ENOENT")) ⟨["a"]⟩ [] []).2
    (.osError "ENOENT") rfl

/-- C3: for each name in the fixed operator list, the synthesized operator
dispatcher with no operand returns the underlying unary operator's result
unmodified (no rewrap), and with one operand unwraps it exactly when it is
a facade instance, applies the underlying binary operator to the owned raw
value and the unwrapped operand, and rewraps the result. -/
theorem forward_magic_spec (name : String) (hname : name ∈ Path_forward_magic)
    (attr : Value → Option Value → Value) (r : RawPath) :
    (_forward_magic attr (Value.facade (Value.rawPath r)) Option.none =
      .ok (attr (Value.rawPath r) Option.none)) ∧
    (∀ o : Value,
      _forward_magic attr (Value.facade (Value.rawPath r)) (some o) =
        .ok (rewrap_path (attr (Value.rawPath r)
          (some (match o with | Value.facade w => w | v => v))))) := by
  refine ⟨by simp [_forward_magic, Value.wrappedGet], ?_⟩
  intro o
  cases o <;> simp [_forward_magic, Value.wrappedGet]

/-- Witness for C3 at the equality operator with a facade operand. -/
theorem forward_magic_spec_witness :
    _forward_magic PurePath_eq (Value.facade (Value.rawPath ⟨["a"]⟩))
      (some (Value.facade (Value.rawPath ⟨["a"]⟩))) = .ok (Value.bool true) := by
  have h := (forward_magic_spec "__eq__" (by decide) PurePath_eq ⟨["a"]⟩).2
      (Value.facade (Value.rawPath ⟨["a"]⟩))
  simpa [PurePath_eq, rewrap_path] using h

/-- C7: `__getattr__` on a facade forwards a name in the property-forward
bucket by evaluating it on the owned raw value and rewrapping, and raises
`AttributeError` for every name outside the bucket. -/
theorem path_getattr_spec (forward : List String)
    (raw_getattr : Value → String → Except PyError Value)
    (r : RawPath) (name : String) :
    (forward.contains name = true →
      Path_getattr forward raw_getattr (Value.facade (Value.rawPath r)) name =
        (raw_getattr (Value.rawPath r) name).map rewrap_path) ∧
    (forward.contains name = false →
      Path_getattr forward raw_getattr (Value.facade (Value.rawPath r)) name =
        .error (.attributeError name)) := by
  have h0 : Path_getattr forward raw_getattr (Value.facade (Value.rawPath r)) name =
      if forward.contains name = true then
        Except.bind (raw_getattr (Value.rawPath r) name)
          (fun value => Except.ok (rewrap_path value))
      else .error (.attributeError name) := rfl
  constructor
  · intro hmem
    rw [h0, if_pos hmem, bind_ok_map]
  · intro hmem
    have hnc : ¬(forward.contains name = true) := by simp only [hmem]; decide
    rw [h0, if_neg hnc]

/-- Witness for C7: a non-forwarded name raises `AttributeError`. -/
theorem path_getattr_spec_witness :
    Path_getattr ["name"] (fun _ _ => .ok (Value.str "x"))
      (Value.facade (Value.rawPath ⟨["a"]⟩)) "suffix" =
      .error (.attributeError "suffix") :=
  (path_getattr_spec ["name"] (fun _ _ => .ok (Value.str "x")) ⟨["a"]⟩ "suffix").2 rfl

/-- C8: equality and path-join operators accept facade and raw operands
interchangeably and agree with the underlying operators: `Path("a")` equals
the raw path `a` and equals `Path("a")`, and `Path("a") / "b"` is a facade
instance equal to `Path("a/b")`. -/
theorem operator_interop_spec :
    Path_init [Value.str "a"] = .ok (Value.facade (Value.rawPath ⟨["a"]⟩)) ∧
    _forward_magic PurePath_eq (Value.facade (Value.rawPath ⟨["a"]⟩))
      (some (Value.rawPath ⟨["a"]⟩)) = .ok (Value.bool true) ∧
    _forward_magic PurePath_eq (Value.facade (Value.rawPath ⟨["a"]⟩))
      (some (Value.facade (Value.rawPath ⟨["a"]⟩))) = .ok (Value.bool true) ∧
    _forward_magic PurePath_truediv (Value.facade (Value.rawPath ⟨["a"]⟩))
      (some (Value.str "b")) = .ok (Value.facade (Value.rawPath ⟨["a", "b"]⟩)) ∧
    Path_init [Value.str "a/b"] = .ok (Value.facade (Value.rawPath ⟨["a", "b"]⟩)) ∧
    _forward_magic PurePath_eq (Value.facade (Value.rawPath ⟨["a", "b"]⟩))
      (some (Value.facade (Value.rawPath ⟨["a", "b"]⟩))) = .ok (Value.bool true) :=
  ⟨rfl, rfl, rfl, rfl, rfl, rfl⟩

/-- Shallow well-formedness: if the value is a facade instance, its
`_wrapped` attribute is a raw path. -/
def wellWrapped : Value → Prop
  | .facade w => w.isRawPath = true
  | _ => True

/-- C10: the constructor only ever produces a facade owning a raw path,
`rewrap_path` preserves that shape, and unwrapping a list of well-formed
values never yields a facade — so unwrapping needs no recursion and no
double-wrapped facade can be produced. -/
theorem facade_invariant_spec :
    (∀ args v, Path_init args = .ok v → v.isFacade = true ∧ wellWrapped v) ∧
    (∀ v, wellWrapped v → wellWrapped (rewrap_path v)) ∧
    (∀ args, (∀ a ∈ args, wellWrapped a) →
      ∀ x ∈ unwrap_paths args, x.isFacade = false) := by
  refine ⟨?_, ?_, ?_⟩
  · intro args v h
    cases hp : pathlib_Path (unwrap_paths args) with
    | error e => simp [Path_init, hp] at h
    | ok w =>
      simp [Path_init, hp] at h
      subst h
      exact ⟨rfl, rfl⟩
  · intro v hv
    cases v with
    | rawPath p => rw [rewrap_path_raw]; exact rfl
    | _ => simpa [rewrap_path] using hv
  · intro args
    induction args with
    | nil => intro _ x hx; cases hx
    | cons a rest ih =>
      intro h x hx
      rcases List.mem_cons.1 hx with hx | hx
      · have ha := h a (List.mem_cons_self a rest)
        subst hx
        cases a with
        | facade w =>
          cases w <;> simp_all [wellWrapped, Value.isRawPath, Value.isFacade]
        | _ => simp_all [Value.isFacade]
      · exact ih (fun b hb => h b (List.mem_cons_of_mem a hb)) x hx

/-- Witness for C10 at a concrete construction. -/
theorem facade_invariant_spec_witness :
    wellWrapped (Value.facade (Value.rawPath ⟨["a"]⟩)) :=
  (facade_invariant_spec.1 [Value.str "a"] (Value.facade (Value.rawPath ⟨["a"]⟩)) rfl).2


/-- Characterization of a successful `generate_forwards` run: it succeeds
iff every eligible member of the dict is a property or a plain function,
and then the two buckets are the eligible property names and the eligible
plain-function names in dict order. -/
theorem gf_ok_iff (attrs : List String) :
    ∀ (l : List (String × Member)) (ps fs : List String),
    generate_forwards attrs l = .ok (ps, fs) ↔
      ((∀ e ∈ l, eligible attrs e.1 = true → e.2 = Member.prop ∨ e.2 = Member.func) ∧
       ps = (l.filter (fun e => eligible attrs e.1 && e.2 == Member.prop)).map Prod.fst ∧
       fs = (l.filter (fun e => eligible attrs e.1 && e.2 == Member.func)).map Prod.fst) := by
  intro l
  induction l with
  | nil =>
    intro ps fs
    constructor
    · intro h
      rw [show generate_forwards attrs [] =
          (.ok ([], []) : Except PyError (List String × List String)) from rfl] at h
      injection h with h
      injection h with h1 h2
      subst h1
      subst h2
      exact ⟨fun e he => absurd he (List.not_mem_nil e), rfl, rfl⟩
    · rintro ⟨-, rfl, rfl⟩
      rfl
  | cons e rest ih =>
    obtain ⟨n, m⟩ := e
    intro ps fs
    by_cases hs : (startswith_underscore n || attrs.contains n) = true
    · have he : eligible attrs n = false := by simp only [eligible]; rw [hs]; rfl
      rw [show generate_forwards attrs ((n, m) :: rest) = generate_forwards attrs rest from by
        simp only [generate_forwards]; rw [hs]; rfl]
      rw [ih ps fs]
      simp [he, List.filter_cons]
    · rw [Bool.not_eq_true] at hs
      have he : eligible attrs n = true := by simp only [eligible]; rw [hs]; rfl
      cases m with
      | prop =>
        cases hr : generate_forwards attrs rest with
        | error err =>
          constructor
          · intro h
            rw [show generate_forwards attrs ((n, Member.prop) :: rest) = .error err from by
              simp only [generate_forwards]; rw [hs, hr]; rfl] at h
            cases h
          · rintro ⟨hall, hps, hfs⟩
            have hok := (ih _ _).mpr
              ⟨fun e hmem hel => hall e (List.mem_cons_of_mem _ hmem) hel, rfl, rfl⟩
            rw [hr] at hok
            cases hok
        | ok pr =>
          obtain ⟨ps', fs'⟩ := pr
          obtain ⟨hall, hps', hfs'⟩ := (ih ps' fs').mp hr
          rw [show generate_forwards attrs ((n, Member.prop) :: rest) = .ok (n :: ps', fs') from by
            simp only [generate_forwards]; rw [hs, hr]; rfl]
          simp only [List.filter_cons, he, Bool.true_and, beq_self_eq_true, if_true,
            Except.ok.injEq, Prod.mk.injEq, List.map_cons]
          constructor
          · rintro ⟨rfl, rfl⟩
            refine ⟨?_, by rw [hps'], by
              rw [show ((Member.prop == Member.func) = false) from rfl]
              simp [hfs']⟩
            intro e hmem hel
            rcases List.mem_cons.1 hmem with rfl | hmem
            · exact Or.inl rfl
            · exact hall e hmem hel
          · rintro ⟨_, hps, hfs⟩
            constructor
            · rw [hps, hps']
            · rw [hfs, hfs']
              rw [show ((Member.prop == Member.func) = false) from rfl]
              simp
      | func =>
        cases hr : generate_forwards attrs rest with
        | error err =>
          constructor
          · intro h
            rw [show generate_forwards attrs ((n, Member.func) :: rest) = .error err from by
              simp only [generate_forwards]; rw [hs, hr]; rfl] at h
            cases h
          · rintro ⟨hall, hps, hfs⟩
            have hok := (ih _ _).mpr
              ⟨fun e hmem hel => hall e (List.mem_cons_of_mem _ hmem) hel, rfl, rfl⟩
            rw [hr] at hok
            cases hok
        | ok pr =>
          obtain ⟨ps', fs'⟩ := pr
          obtain ⟨hall, hps', hfs'⟩ := (ih ps' fs').mp hr
          rw [show generate_forwards attrs ((n, Member.func) :: rest) = .ok (ps', n :: fs') from by
            simp only [generate_forwards]; rw [hs, hr]; rfl]
          simp only [List.filter_cons, he, Bool.true_and, beq_self_eq_true, if_true,
            Except.ok.injEq, Prod.mk.injEq, List.map_cons]
          constructor
          · rintro ⟨rfl, rfl⟩
            refine ⟨?_, by
              rw [show ((Member.func == Member.prop) = false) from rfl]
              simp [hps'], by rw [hfs']⟩
            intro e hmem hel
            rcases List.mem_cons.1 hmem with rfl | hmem
            · exact Or.inr rfl
            · exact hall e hmem hel
          · rintro ⟨_, hps, hfs⟩
            constructor
            · rw [hps, hps']
              rw [show ((Member.func == Member.prop) = false) from rfl]
              simp
            · rw [hfs, hfs']
      | classmeth =>
        rw [show generate_forwards attrs ((n, Member.classmeth) :: rest) =
            .error (.typeError n) from by simp only [generate_forwards]; rw [hs]; rfl]
        constructor
        · intro h; cases h
        · rintro ⟨hall, -, -⟩
          have := hall (n, Member.classmeth) (List.mem_cons_self _ _) he
          rcases this with h | h <;> cases h
      | other d =>
        rw [show generate_forwards attrs ((n, Member.other d) :: rest) =
            .error (.typeError n) from by simp only [generate_forwards]; rw [hs]; rfl]
        constructor
        · intro h; cases h
        · rintro ⟨hall, -, -⟩
          have := hall (n, Member.other d) (List.mem_cons_self _ _) he
          rcases this with h | h <;> cases h

/-- Characterization of a successful `generate_wraps` run: it succeeds iff
every eligible member of the dict is a classmethod or a plain function,
and then the two buckets are the eligible classmethod names and the
eligible plain-function names in dict order. -/
theorem gw_ok_iff (attrs : List String) :
    ∀ (l : List (String × Member)) (cs ws : List String),
    generate_wraps attrs l = .ok (cs, ws) ↔
      ((∀ e ∈ l, eligible attrs e.1 = true → e.2 = Member.classmeth ∨ e.2 = Member.func) ∧
       cs = (l.filter (fun e => eligible attrs e.1 && e.2 == Member.classmeth)).map Prod.fst ∧
       ws = (l.filter (fun e => eligible attrs e.1 && e.2 == Member.func)).map Prod.fst) := by
  intro l
  induction l with
  | nil =>
    intro cs ws
    constructor
    · intro h
      rw [show generate_wraps attrs [] =
          (.ok ([], []) : Except PyError (List String × List String)) from rfl] at h
      injection h with h
      injection h with h1 h2
      subst h1
      subst h2
      exact ⟨fun e he => absurd he (List.not_mem_nil e), rfl, rfl⟩
    · rintro ⟨-, rfl, rfl⟩
      rfl
  | cons e rest ih =>
    obtain ⟨n, m⟩ := e
    intro cs ws
    by_cases hs : (startswith_underscore n || attrs.contains n) = true
    · have he : eligible attrs n = false := by simp only [eligible]; rw [hs]; rfl
      rw [show generate_wraps attrs ((n, m) :: rest) = generate_wraps attrs rest from by
        simp only [generate_wraps]; rw [hs]; rfl]
      rw [ih cs ws]
      simp [he, List.filter_cons]
    · rw [Bool.not_eq_true] at hs
      have he : eligible attrs n = true := by simp only [eligible]; rw [hs]; rfl
      cases m with
      | classmeth =>
        cases hr : generate_wraps attrs rest with
        | error err =>
          constructor
          · intro h
            rw [show generate_wraps attrs ((n, Member.classmeth) :: rest) = .error err from by
              simp only [generate_wraps]; rw [hs, hr]; rfl] at h
            cases h
          · rintro ⟨hall, hcs, hws⟩
            have hok := (ih _ _).mpr
              ⟨fun e hmem hel => hall e (List.mem_cons_of_mem _ hmem) hel, rfl, rfl⟩
            rw [hr] at hok
            cases hok
        | ok pr =>
          obtain ⟨cs', ws'⟩ := pr
          obtain ⟨hall, hcs', hws'⟩ := (ih cs' ws').mp hr
          rw [show generate_wraps attrs ((n, Member.classmeth) :: rest) =
              .ok (n :: cs', ws') from by
            simp only [generate_wraps]; rw [hs, hr]; rfl]
          simp only [List.filter_cons, he, Bool.true_and, beq_self_eq_true, if_true,
            Except.ok.injEq, Prod.mk.injEq, List.map_cons]
          constructor
          · rintro ⟨rfl, rfl⟩
            refine ⟨?_, by rw [hcs'], by
              rw [show ((Member.classmeth == Member.func) = false) from rfl]
              simp [hws']⟩
            intro e hmem hel
            rcases List.mem_cons.1 hmem with rfl | hmem
            · exact Or.inl rfl
            · exact hall e hmem hel
          · rintro ⟨_, hcs, hws⟩
            constructor
            · rw [hcs, hcs']
            · rw [hws, hws']
              rw [show ((Member.classmeth == Member.func) = false) from rfl]
              simp
      | func =>
        cases hr : generate_wraps attrs rest with
        | error err =>
          constructor
          · intro h
            rw [show generate_wraps attrs ((n, Member.func) :: rest) = .error err from by
              simp only [generate_wraps]; rw [hs, hr]; rfl] at h
            cases h
          · rintro ⟨hall, hcs, hws⟩
            have hok := (ih _ _).mpr
              ⟨fun e hmem hel => hall e (List.mem_cons_of_mem _ hmem) hel, rfl, rfl⟩
            rw [hr] at hok
            cases hok
        | ok pr =>
          obtain ⟨cs', ws'⟩ := pr
          obtain ⟨hall, hcs', hws'⟩ := (ih cs' ws').mp hr
          rw [show generate_wraps attrs ((n, Member.func) :: rest) = .ok (cs', n :: ws') from by
            simp only [generate_wraps]; rw [hs, hr]; rfl]
          simp only [List.filter_cons, he, Bool.true_and, beq_self_eq_true, if_true,
            Except.ok.injEq, Prod.mk.injEq, List.map_cons]
          constructor
          · rintro ⟨rfl, rfl⟩
            refine ⟨?_, by
              rw [show ((Member.func == Member.classmeth) = false) from rfl]
              simp [hcs'], by rw [hws']⟩
            intro e hmem hel
            rcases List.mem_cons.1 hmem with rfl | hmem
            · exact Or.inr rfl
            · exact hall e hmem hel
          · rintro ⟨_, hcs, hws⟩
            constructor
            · rw [hcs, hcs']
              rw [show ((Member.func == Member.classmeth) = false) from rfl]
              simp
            · rw [hws, hws']
      | prop =>
        rw [show generate_wraps attrs ((n, Member.prop) :: rest) =
            .error (.typeError n) from by simp only [generate_wraps]; rw [hs]; rfl]
        constructor
        · intro h; cases h
        · rintro ⟨hall, -, -⟩
          have := hall (n, Member.prop) (List.mem_cons_self _ _) he
          rcases this with h | h <;> cases h
      | other d =>
        rw [show generate_wraps attrs ((n, Member.other d) :: rest) =
            .error (.typeError n) from by simp only [generate_wraps]; rw [hs]; rfl]
        constructor
        · intro h; cases h
        · rintro ⟨hall, -, -⟩
          have := hall (n, Member.other d) (List.mem_cons_self _ _) he
          rcases this with h | h <;> cases h

/-- Membership in the name projection of a filtered member dict. -/
theorem mem_map_fst_filter {l : List (String × Member)} {q : String × Member → Bool}
    {n : String} :
    n ∈ (l.filter q).map Prod.fst ↔ ∃ m, (n, m) ∈ l ∧ q (n, m) = true := by
  constructor
  · intro h
    obtain ⟨e, hef, hfst⟩ := List.mem_map.1 h
    obtain ⟨hel, hq⟩ := List.mem_filter.1 hef
    obtain ⟨a, m⟩ := e
    have ha : a = n := hfst
    subst ha
    exact ⟨m, hel, hq⟩
  · rintro ⟨m, hel, hq⟩
    exact List.mem_map.2 ⟨(n, m), List.mem_filter.2 ⟨hel, hq⟩, rfl⟩

/-- In a dict with duplicate-free keys, a key determines its member. -/
theorem keys_nodup_unique {l : List (String × Member)}
    (h : (l.map Prod.fst).Nodup) {n : String} {a b : Member}
    (ha : (n, a) ∈ l) (hb : (n, b) ∈ l) : a = b := by
  induction l with
  | nil => cases ha
  | cons e rest ih =>
    rw [List.map_cons, List.nodup_cons] at h
    rcases List.mem_cons.1 ha with ha1 | ha1 <;> rcases List.mem_cons.1 hb with hb1 | hb1
    · injection ha1.trans hb1.symm
    · exfalso
      have hn : n ∈ List.map Prod.fst rest := List.mem_map.2 ⟨(n, b), hb1, rfl⟩
      rw [← ha1] at h
      exact h.1 hn
    · exfalso
      have hn : n ∈ List.map Prod.fst rest := List.mem_map.2 ⟨(n, a), ha1, rfl⟩
      rw [← hb1] at h
      exact h.1 hn
    · exact ih h.2 ha1 hb1

/-- Facade type construction succeeds exactly when both classifier loops
succeed, with the four buckets as stated. -/
theorem init_ok_iff (attrs : List String) (fdict wdict : List (String × Member))
    (res : ClassifyResult) :
    AsyncAutoWrapperType_init attrs fdict wdict = .ok res ↔
      generate_forwards attrs fdict = .ok (res.forwardProps, res.forwardMeths) ∧
      generate_wraps attrs wdict = .ok (res.classMeths, res.wrapMeths) := by
  obtain ⟨a, b, c, d⟩ := res
  unfold AsyncAutoWrapperType_init
  cases hf : generate_forwards attrs fdict with
  | error e => simp
  | ok pr =>
    obtain ⟨ps, fs⟩ := pr
    cases hw : generate_wraps attrs wdict with
    | error e => simp
    | ok pr2 =>
      obtain ⟨cs, ws⟩ := pr2
      simp only [Except.ok.injEq, ClassifyResult.mk.injEq, Prod.mk.injEq]
      constructor
      · rintro ⟨rfl, rfl, rfl, rfl⟩
        exact ⟨⟨rfl, rfl⟩, rfl, rfl⟩
      · rintro ⟨⟨rfl, rfl⟩, rfl, rfl⟩
        exact ⟨rfl, rfl, rfl, rfl⟩


/-- C6: with duplicate-free member dictionaries, a successful facade type
construction places every eligible member of the non-blocking source in
exactly one of the property-forward and non-blocking-dispatcher buckets
according to its kind, every eligible member of the blocking source in
exactly one of the classmethod and blocking-dispatcher buckets, and any
eligible member of an unrecognized kind makes construction fail with no
successful result. -/
theorem classifier_spec (attrs : List String)
    (fdict wdict : List (String × Member))
    (hf : (fdict.map Prod.fst).Nodup) (hw : (wdict.map Prod.fst).Nodup) :
    (∀ res, AsyncAutoWrapperType_init attrs fdict wdict = .ok res →
      (∀ n m, (n, m) ∈ fdict → eligible attrs n = true →
        (m = Member.prop ∧ n ∈ res.forwardProps ∧ n ∉ res.forwardMeths) ∨
        (m = Member.func ∧ n ∈ res.forwardMeths ∧ n ∉ res.forwardProps)) ∧
      (∀ n m, (n, m) ∈ wdict → eligible attrs n = true →
        (m = Member.classmeth ∧ n ∈ res.classMeths ∧ n ∉ res.wrapMeths) ∨
        (m = Member.func ∧ n ∈ res.wrapMeths ∧ n ∉ res.classMeths))) ∧
    (∀ n m, (n, m) ∈ fdict → eligible attrs n = true →
      m ≠ Member.prop → m ≠ Member.func →
      ∀ res, AsyncAutoWrapperType_init attrs fdict wdict ≠ .ok res) ∧
    (∀ n m, (n, m) ∈ wdict → eligible attrs n = true →
      m ≠ Member.classmeth → m ≠ Member.func →
      ∀ res, AsyncAutoWrapperType_init attrs fdict wdict ≠ .ok res) := by
  refine ⟨?_, ?_, ?_⟩
  · intro res hres
    obtain ⟨hgf, hgw⟩ := (init_ok_iff attrs fdict wdict res).mp hres
    obtain ⟨hallf, hpsf, hfsf⟩ := (gf_ok_iff attrs fdict _ _).mp hgf
    obtain ⟨hallw, hcsw, hwsw⟩ := (gw_ok_iff attrs wdict _ _).mp hgw
    constructor
    · intro n m hmem hel
      rcases hallf (n, m) hmem hel with rfl | rfl
      · refine Or.inl ⟨rfl, ?_, ?_⟩
        · rw [hpsf]
          exact mem_map_fst_filter.2 ⟨Member.prop, hmem, by simp [hel]⟩
        · rw [hfsf]
          intro hcontra
          obtain ⟨m2, hmem2, hq2⟩ := mem_map_fst_filter.1 hcontra
          simp only [Bool.and_eq_true, beq_iff_eq] at hq2
          have hx : Member.prop = Member.func :=
            keys_nodup_unique hf hmem (hq2.2 ▸ hmem2)
          cases hx
      · refine Or.inr ⟨rfl, ?_, ?_⟩
        · rw [hfsf]
          exact mem_map_fst_filter.2 ⟨Member.func, hmem, by simp [hel]⟩
        · rw [hpsf]
          intro hcontra
          obtain ⟨m2, hmem2, hq2⟩ := mem_map_fst_filter.1 hcontra
          simp only [Bool.and_eq_true, beq_iff_eq] at hq2
          have hx : Member.func = Member.prop :=
            keys_nodup_unique hf hmem (hq2.2 ▸ hmem2)
          cases hx
    · intro n m hmem hel
      rcases hallw (n, m) hmem hel with rfl | rfl
      · refine Or.inl ⟨rfl, ?_, ?_⟩
        · rw [hcsw]
          exact mem_map_fst_filter.2 ⟨Member.classmeth, hmem, by simp [hel]⟩
        · rw [hwsw]
          intro hcontra
          obtain ⟨m2, hmem2, hq2⟩ := mem_map_fst_filter.1 hcontra
          simp only [Bool.and_eq_true, beq_iff_eq] at hq2
          have hx : Member.classmeth = Member.func :=
            keys_nodup_unique hw hmem (hq2.2 ▸ hmem2)
          cases hx
      · refine Or.inr ⟨rfl, ?_, ?_⟩
        · rw [hwsw]
          exact mem_map_fst_filter.2 ⟨Member.func, hmem, by simp [hel]⟩
        · rw [hcsw]
          intro hcontra
          obtain ⟨m2, hmem2, hq2⟩ := mem_map_fst_filter.1 hcontra
          simp only [Bool.and_eq_true, beq_iff_eq] at hq2
          have hx : Member.func = Member.classmeth :=
            keys_nodup_unique hw hmem (hq2.2 ▸ hmem2)
          cases hx
  · intro n m hmem hel hnp hnf res hres
    obtain ⟨hgf, -⟩ := (init_ok_iff attrs fdict wdict res).mp hres
    obtain ⟨hallf, -, -⟩ := (gf_ok_iff attrs fdict _ _).mp hgf
    rcases hallf (n, m) hmem hel with rfl | rfl
    · exact hnp rfl
    · exact hnf rfl
  · intro n m hmem hel hnc hnf res hres
    obtain ⟨-, hgw⟩ := (init_ok_iff attrs fdict wdict res).mp hres
    obtain ⟨hallw, -, -⟩ := (gw_ok_iff attrs wdict _ _).mp hgw
    rcases hallw (n, m) hmem hel with rfl | rfl
    · exact hnc rfl
    · exact hnf rfl

/-- Witness for C6 at a concrete pair of member dictionaries. -/
theorem classifier_spec_witness :
    "name" ∈ (ClassifyResult.mk ["name"] ["joinpath"] ["cwd"] ["stat"]).forwardProps := by
  have h := ((classifier_spec [] [("name", Member.prop), ("joinpath", Member.func)]
      [("cwd", Member.classmeth), ("stat", Member.func)] (by decide) (by decide)).1
      (ClassifyResult.mk ["name"] ["joinpath"] ["cwd"] ["stat"]) rfl).1
      "name" Member.prop (by decide) (by decide)
  rcases h with h | h
  · exact h.2.1
  · exact absurd h.1 (by decide)

end TrioPath
